import Mathlib

/-!
Verification of the page-generator build script `sample/build-html.py`.

The script (Python 2) reads an HTML template `Sample.html.in` and a source
listing `Editor.jsx.bin`, shells out to the line-counting tool `cloc`, reads
the byte sizes of `Editor.js` and `Editor.js.gz`, and prints the template with
the four placeholder tokens SOURCE, MINIFIED_SIZE, GZIP_SIZE and CLOC replaced
by the loaded or formatted values:

  print on the result of chaining replace(SOURCE, source),
  replace(MINIFIED_SIZE, format(minified_size/1024.0)),
  replace(GZIP_SIZE, format(gzip_size/1024.0)) and
  replace(CLOC, format(float(cloc)/1024.0)) over the template text,

where the MINIFIED_SIZE and GZIP_SIZE formats are the fixed-point format with
zero decimals and the CLOC format is the fixed-point format with one decimal.

This file embeds the script shallowly: Python strings become `List Char`,
`str.replace` becomes `pyReplace`, `str.split` becomes `pySplit`, the
fixed-point formatting of the exact binary value n/1024 (exactly representable
as an IEEE double for every realistic file size) becomes `fmt0` and `fmt1`
via round-half-even, and the run of the script over a filesystem/tool state
becomes `run : Env → Except PyError (List Char)`, returning the printed text
or the first uncaught Python exception in the script's evaluation order.
-/

/-- The ten ASCII digit characters; `digitChar d` is the digit for `d < 10`. -/
def digitChar (d : Nat) : Char :=
  ['0', '1', '2', '3', '4', '5', '6', '7', '8', '9'].getD d '0'

/-- Fuel-driven most-significant-first decimal digit expansion accumulator. -/
def natDigitsGo : Nat → Nat → List Char → List Char
  | 0, _, acc => acc
  | fuel + 1, n, acc =>
    if n < 10 then digitChar n :: acc
    else natDigitsGo fuel (n / 10) (digitChar (n % 10) :: acc)

/-- Decimal digit string of a natural number (`repr` of a nonnegative int). -/
def natDigits (n : Nat) : List Char := natDigitsGo (n + 1) n []

/-- Round-half-even of the exact rational `a / 1024`: the integer produced by
Python's fixed-point formatting with zero decimals applied to the double
`a/1024.0`, which is exact because 1024 is a power of two. -/
def rhe1024 (a : Nat) : Nat :=
  if a % 1024 < 512 then a / 1024
  else if 512 < a % 1024 then a / 1024 + 1
  else if (a / 1024) % 2 = 0 then a / 1024 else a / 1024 + 1

/-- Python `"...".format(n/1024.0)` with the zero-decimals fixed-point format:
the size ratio rendered as an integer, rounding half to even. -/
def fmt0 (n : Nat) : List Char := natDigits (rhe1024 n)

/-- Python `"...".format(float(n)/1024.0)` with the one-decimal fixed-point
format: `n/1024` rounded half-to-even to a whole number of tenths, rendered
with exactly one digit after the decimal point. -/
def fmt1 (n : Nat) : List Char :=
  natDigits (rhe1024 (10 * n) / 10) ++ '.' :: natDigits (rhe1024 (10 * n) % 10)

/-- Fuel-driven worker for `pyReplace`.  Scans left to right; at each position
either the (nonempty) pattern is a prefix and is consumed and replaced, or one
character is emitted.  The fuel only needs to bound the number of steps, and
each step consumes at least one character of `l`. -/
def repGo (pat rep : List Char) : Nat → List Char → List Char
  | _, [] => []
  | 0, l => l
  | fuel + 1, c :: rest =>
    if pat ≠ [] ∧ pat.isPrefixOf (c :: rest) then
      rep ++ repGo pat rep fuel (List.drop pat.length (c :: rest))
    else
      c :: repGo pat rep fuel rest

/-- Python `l.replace(pat, rep)` for a nonempty pattern: replace every
non-overlapping occurrence, scanning left to right.  (The script only ever
replaces the four nonempty literal tokens.) -/
def pyReplace (l pat rep : List Char) : List Char := repGo pat rep l.length l

/-- Fuel-driven worker counting the occurrences `repGo` replaces. -/
def occGo (pat : List Char) : Nat → List Char → Nat
  | _, [] => 0
  | 0, _ => 0
  | fuel + 1, c :: rest =>
    if pat ≠ [] ∧ pat.isPrefixOf (c :: rest) then
      occGo pat fuel (List.drop pat.length (c :: rest)) + 1
    else
      occGo pat fuel rest

/-- Number of non-overlapping left-to-right occurrences of `pat` in `l`,
exactly the occurrences `pyReplace` substitutes. -/
def occCount (l pat : List Char) : Nat := occGo pat l.length l

/-- Python `s.split(sep)` for a one-character separator: splits at every
occurrence and keeps empty fields, so the result is always nonempty. -/
def pySplit (sep : Char) : List Char → List (List Char)
  | [] => [[]]
  | c :: rest =>
    match pySplit sep rest with
    | [] => [[]]
    | g :: gs => if c = sep then [] :: g :: gs else (c :: g) :: gs

/-- Numeric value of a string of decimal digits. -/
def digitsVal (l : List Char) : Nat :=
  l.foldl (fun acc c => 10 * acc + (c.toNat - 48)) 0

/-- Python `float(s)` restricted to the shape the cloc CSV contract gives the
extracted field: a nonempty string of decimal digits (a nonnegative integer
line count).  Any other string is modelled as the ValueError branch. -/
def pyFloat (l : List Char) : Option Nat :=
  if l ≠ [] ∧ l.all Char.isDigit then some (digitsVal l) else none

/-- The literal placeholder token SOURCE. -/
def tokSOURCE : List Char := "SOURCE".data

/-- The literal placeholder token MINIFIED_SIZE. -/
def tokMINIFIED : List Char := "MINIFIED_SIZE".data

/-- The literal placeholder token GZIP_SIZE. -/
def tokGZIP : List Char := "GZIP_SIZE".data

/-- The literal placeholder token CLOC. -/
def tokCLOC : List Char := "CLOC".data

/-- The text the script prints: the template with SOURCE, MINIFIED_SIZE,
GZIP_SIZE and CLOC replaced in that order, each by a global replace. -/
def outputText (sample source : List Char) (cloc msize gsize : Nat) : List Char :=
  pyReplace
    (pyReplace
      (pyReplace
        (pyReplace sample tokSOURCE source)
        tokMINIFIED (fmt0 msize))
      tokGZIP (fmt0 gsize))
    tokCLOC (fmt1 cloc)

/-- The uncaught Python exceptions the script can die with: IOError from
`open`, OSError from `os.path.getsize`, IndexError from the two subscripts on
the cloc output, ValueError from `float`. -/
inductive PyError
  | IOError
  | OSError
  | IndexError
  | ValueError
  deriving DecidableEq

/-- The ambient state a run of the script observes: the contents of the two
text files (`none` when the file is missing), the captured output of the cloc
invocation (`commands.getoutput` always returns a string), and the sizes of
the two bundle files (`none` when the file is missing). -/
structure Env where
  sampleFile : Option (List Char)
  sourceFile : Option (List Char)
  clocOutput : List Char
  minifiedSize : Option Nat
  gzipSize : Option Nat

/-- Line 6 of the script up to the subscripts: split the captured tool output
on newlines, take element 2, split that on commas, take element 4 — the 5th
comma-separated field of the 3rd line — or die with IndexError. -/
def extractField (out : List Char) : Except PyError (List Char) :=
  match (pySplit '\n' out).get? 2 with
  | none => Except.error PyError.IndexError
  | some line =>
    match (pySplit ',' line).get? 4 with
    | none => Except.error PyError.IndexError
    | some f => Except.ok f

/-- The whole script.  Effects happen in the script's order: open the
template, open the source listing, extract the cloc field (IndexError), stat
the two bundles (OSError), evaluate the print expression — whose `float(cloc)`
call (ValueError) runs only when the sizes were read — and print. -/
def run (env : Env) : Except PyError (List Char) :=
  match env.sampleFile with
  | none => Except.error PyError.IOError
  | some sample =>
    match env.sourceFile with
    | none => Except.error PyError.IOError
    | some source =>
      match extractField env.clocOutput with
      | Except.error e => Except.error e
      | Except.ok field =>
        match env.minifiedSize with
        | none => Except.error PyError.OSError
        | some msize =>
          match env.gzipSize with
          | none => Except.error PyError.OSError
          | some gsize =>
            match pyFloat field with
            | none => Except.error PyError.ValueError
            | some cloc => Except.ok (outputText sample source cloc msize gsize)

/-- The bytes the script leaves on standard output: the printed text plus the
line terminator the Python 2 print statement appends, or nothing when the
script dies first. -/
def stdout (env : Env) : List Char :=
  match run env with
  | Except.ok s => s ++ ['\n']
  | Except.error _ => []

/-- The process exit status: 0 on success, 1 on an uncaught exception. -/
def exitCode (env : Env) : Nat :=
  match run env with
  | Except.ok _ => 0
  | Except.error _ => 1

/-- The characters the placeholder tokens are made of: ASCII capitals and the
underscore.  The formatted numeric values never contain such a character. -/
def tokenChar (c : Char) : Prop := ('A' ≤ c ∧ c ≤ 'Z') ∨ c = '_'

instance tokenChar.dec : DecidablePred tokenChar := fun c => by
  unfold tokenChar
  infer_instance

/-- Occurrence of `pat` starting inside the first `k` positions of `l`. -/
def noStart (pat l : List Char) (k : Nat) : Prop :=
  ∀ i, i < k → ¬ pat <+: List.drop i l

instance noStart.dec (pat l : List Char) (k : Nat) : Decidable (noStart pat l k) := by
  unfold noStart
  infer_instance

theorem prefixOf_iff {l₁ l₂ : List Char} : l₁.isPrefixOf l₂ = true ↔ l₁ <+: l₂ :=
  List.isPrefixOf_iff_prefix

theorem nilIsPre (l : List Char) : [] <+: l := ⟨l, rfl⟩

theorem prefix_to_infixP {t l : List Char} (h : t <+: l) : t <:+: l := by
  rcases h with ⟨r, rfl⟩
  exact ⟨[], r, rfl⟩

theorem suffix_to_infixP {t l : List Char} (h : t <:+ l) : t <:+: l := by
  rcases h with ⟨s, rfl⟩
  exact ⟨s, [], by simp⟩

theorem infixP_cons_of {t l : List Char} (a : Char) (h : t <:+: l) : t <:+: a :: l := by
  rcases h with ⟨s, r, rfl⟩
  exact ⟨a :: s, r, rfl⟩

theorem repGo_zero (pat rep l : List Char) : repGo pat rep 0 l = l := by
  cases l <;> rfl

theorem repGo_nil (pat rep : List Char) (fuel : Nat) : repGo pat rep fuel [] = [] := by
  cases fuel <;> rfl

theorem occGo_nil (pat : List Char) (fuel : Nat) : occGo pat fuel [] = 0 := by
  cases fuel <;> rfl

theorem occGo_zero (pat l : List Char) : occGo pat 0 l = 0 := by
  cases l <;> rfl

theorem repGo_fuel (pat rep : List Char) :
    ∀ fuel fuel' l, l.length ≤ fuel → l.length ≤ fuel' →
      repGo pat rep fuel l = repGo pat rep fuel' l := by
  intro fuel
  induction fuel with
  | zero =>
    intro fuel' l h _
    rw [List.length_eq_zero.mp (Nat.le_zero.mp h)]
    rw [repGo_nil, repGo_nil]
  | succ f ih =>
    intro fuel' l h h'
    cases l with
    | nil => cases fuel' <;> rfl
    | cons c rest =>
      cases fuel' with
      | zero => simp at h'
      | succ f' =>
        simp only [repGo]
        by_cases hc : pat ≠ [] ∧ pat.isPrefixOf (c :: rest)
        · rw [if_pos hc, if_pos hc]
          have hp : 1 ≤ pat.length := List.length_pos.mpr hc.1
          have hd : (List.drop pat.length (c :: rest)).length ≤ f := by
            simp only [List.length_drop, List.length_cons]
            simp only [List.length_cons] at h
            omega
          have hd' : (List.drop pat.length (c :: rest)).length ≤ f' := by
            simp only [List.length_drop, List.length_cons]
            simp only [List.length_cons] at h'
            omega
          exact congrArg (rep ++ ·) (ih f' _ hd hd')
        · rw [if_neg hc, if_neg hc]
          simp only [List.length_cons] at h h'
          exact congrArg (c :: ·) (ih f' rest (by omega) (by omega))

theorem pyReplace_cons_match {pat : List Char} (rep : List Char) {c : Char}
    {rest : List Char} (hpat : pat ≠ []) (hp : pat <+: c :: rest) :
    pyReplace (c :: rest) pat rep
      = rep ++ pyReplace (List.drop pat.length (c :: rest)) pat rep := by
  show repGo pat rep (c :: rest).length (c :: rest) = _
  rw [List.length_cons]
  simp only [repGo]
  rw [if_pos ⟨hpat, prefixOf_iff.mpr hp⟩]
  congr 1
  apply repGo_fuel
  · have hp1 : 1 ≤ pat.length := List.length_pos.mpr hpat
    simp only [List.length_drop, List.length_cons]
    omega
  · exact le_rfl

theorem pyReplace_cons_nomatch {pat : List Char} (rep : List Char) {c : Char}
    {rest : List Char} (h : ¬ (pat ≠ [] ∧ pat <+: c :: rest)) :
    pyReplace (c :: rest) pat rep = c :: pyReplace rest pat rep := by
  show repGo pat rep (c :: rest).length (c :: rest) = _
  rw [List.length_cons]
  simp only [repGo]
  rw [if_neg (fun hc => h ⟨hc.1, prefixOf_iff.mp hc.2⟩)]
  rfl

theorem pyReplace_pat_head (pat rep l2 : List Char) (hpat : pat ≠ []) :
    pyReplace (pat ++ l2) pat rep = rep ++ pyReplace l2 pat rep := by
  cases pat with
  | nil => exact absurd rfl hpat
  | cons p0 pat' =>
    rw [List.cons_append]
    rw [pyReplace_cons_match rep hpat (by rw [← List.cons_append]; exact List.prefix_append _ _)]
    congr 1
    rw [show (p0 :: pat').length = (p0 :: pat').length from rfl, ← List.cons_append,
      List.drop_left]

theorem prefix_append_cases {t x y : List Char} (h : t <+: x ++ y) :
    t <+: x ∨ ∃ t2, t = x ++ t2 ∧ t2 <+: y := by
  induction x generalizing t with
  | nil => exact Or.inr ⟨t, by simp, by simpa using h⟩
  | cons a x' ih =>
    cases t with
    | nil => exact Or.inl (nilIsPre _)
    | cons b t' =>
      rw [List.cons_append] at h
      rcases List.cons_prefix_cons.mp h with ⟨rfl, h'⟩
      rcases ih h' with h2 | ⟨t2, rfl, h3⟩
      · exact Or.inl (List.cons_prefix_cons.mpr ⟨rfl, h2⟩)
      · exact Or.inr ⟨t2, by simp, h3⟩

theorem infix_append_cases {t x y : List Char} (h : t <:+: x ++ y) :
    t <:+: x ∨ t <:+: y ∨
      ∃ t1 t2, t = t1 ++ t2 ∧ t1 ≠ [] ∧ t2 ≠ [] ∧ t1 <:+ x ∧ t2 <+: y := by
  induction x generalizing t with
  | nil => exact Or.inr (Or.inl (by simpa using h))
  | cons a x' ih =>
    rw [List.cons_append] at h
    rcases List.infix_cons_iff.mp h with hp | hi
    · rcases @prefix_append_cases t (a :: x') y hp with h1 | ⟨t2, rfl, h3⟩
      · exact Or.inl (prefix_to_infixP h1)
      · by_cases ht2 : t2 = []
        · subst ht2
          refine Or.inl ?_
          rw [List.append_nil]
        · exact Or.inr (Or.inr ⟨a :: x', t2, rfl, by simp, ht2, List.suffix_refl _, h3⟩)
    · rcases ih hi with h1 | h2 | ⟨t1, t2, rfl, h3, h4, h5, h6⟩
      · exact Or.inl (infixP_cons_of a h1)
      · exact Or.inr (Or.inl h2)
      · exact Or.inr (Or.inr ⟨t1, t2, rfl, h3, h4, h5.trans (List.suffix_cons a x'), h6⟩)

theorem tokSOURCE_chars : ∀ c ∈ tokSOURCE, tokenChar c := by decide

theorem tokMINIFIED_chars : ∀ c ∈ tokMINIFIED, tokenChar c := by decide

theorem tokGZIP_chars : ∀ c ∈ tokGZIP, tokenChar c := by decide

theorem tokCLOC_chars : ∀ c ∈ tokCLOC, tokenChar c := by decide

theorem digitChar_not_token (d : Nat) : ¬ tokenChar (digitChar d) := by
  by_cases h : d < 10
  · interval_cases d <;> decide
  · have hd : digitChar d = '0' := by
      unfold digitChar
      apply List.getD_eq_default
      simp only [List.length]
      omega
    rw [hd]
    decide

theorem natDigitsGo_chars (fuel : Nat) :
    ∀ n acc, (∀ c ∈ acc, ¬ tokenChar c) → ∀ c ∈ natDigitsGo fuel n acc, ¬ tokenChar c := by
  induction fuel with
  | zero => intro n acc hacc; simpa [natDigitsGo] using hacc
  | succ f ih =>
    intro n acc hacc
    simp only [natDigitsGo]
    split_ifs
    · intro c hc
      rcases List.mem_cons.mp hc with rfl | hmem
      · exact digitChar_not_token n
      · exact hacc c hmem
    · refine ih _ _ ?_
      intro c hc
      rcases List.mem_cons.mp hc with rfl | hmem
      · exact digitChar_not_token (n % 10)
      · exact hacc c hmem

theorem natDigits_chars (n : Nat) : ∀ c ∈ natDigits n, ¬ tokenChar c :=
  natDigitsGo_chars (n + 1) n [] (by simp)

theorem natDigitsGo_ne_nil_acc (fuel : Nat) :
    ∀ n acc, acc ≠ [] → natDigitsGo fuel n acc ≠ [] := by
  induction fuel with
  | zero => intro n acc hacc; simpa [natDigitsGo] using hacc
  | succ f ih =>
    intro n acc hacc
    simp only [natDigitsGo]
    split_ifs
    · simp
    · exact ih _ _ (by simp)

theorem natDigits_ne_nil (n : Nat) : natDigits n ≠ [] := by
  show natDigitsGo (n + 1) n [] ≠ []
  simp only [natDigitsGo]
  split_ifs
  · simp
  · exact natDigitsGo_ne_nil_acc _ _ _ (by simp)

theorem fmt0_chars (n : Nat) : ∀ c ∈ fmt0 n, ¬ tokenChar c := natDigits_chars _

theorem fmt0_ne_nil (n : Nat) : fmt0 n ≠ [] := natDigits_ne_nil _

theorem fmt1_chars (n : Nat) : ∀ c ∈ fmt1 n, ¬ tokenChar c := by
  unfold fmt1
  intro c hc
  rcases List.mem_append.mp hc with h1 | h2
  · exact natDigits_chars _ c h1
  · rcases List.mem_cons.mp h2 with rfl | h3
    · decide
    · exact natDigits_chars _ c h3

theorem fmt1_ne_nil (n : Nat) : fmt1 n ≠ [] := by
  unfold fmt1
  intro h
  exact natDigits_ne_nil _ (List.append_eq_nil.mp h).1

theorem repGo_prefix_pull {pat rep : List Char} (hrep : rep ≠ [])
    (hrepP : ∀ c ∈ rep, ¬ tokenChar c) :
    ∀ fuel l s, s ≠ [] → (∀ c ∈ s, tokenChar c) →
      s <+: repGo pat rep fuel l → s <+: l := by
  intro fuel
  induction fuel with
  | zero =>
    intro l s _ _ h
    rwa [repGo_zero] at h
  | succ f ih =>
    intro l s hs hsP h
    cases l with
    | nil =>
      rw [repGo_nil] at h
      rwa [List.prefix_nil.mp h] at hs
    | cons c rest =>
      simp only [repGo] at h
      by_cases hc : pat ≠ [] ∧ pat.isPrefixOf (c :: rest)
      · rw [if_pos hc] at h
        cases s with
        | nil => exact absurd rfl hs
        | cons s0 s' =>
          cases rep with
          | nil => exact absurd rfl hrep
          | cons r0 rep' =>
            rw [List.cons_append] at h
            rcases List.cons_prefix_cons.mp h with ⟨rfl, -⟩
            exact absurd (hsP s0 (by simp)) (hrepP s0 (by simp))
      · rw [if_neg hc] at h
        cases s with
        | nil => exact absurd rfl hs
        | cons s0 s' =>
          rcases List.cons_prefix_cons.mp h with ⟨rfl, h'⟩
          by_cases hs' : s' = []
          · subst hs'
            exact List.cons_prefix_cons.mpr ⟨rfl, nilIsPre _⟩
          · exact List.cons_prefix_cons.mpr
              ⟨rfl, ih rest s' hs' (fun x hx => hsP x (by simp [hx])) h'⟩

theorem repGo_no_pat {pat rep : List Char} (hpat : pat ≠ [])
    (hpatP : ∀ c ∈ pat, tokenChar c) (hrep : rep ≠ [])
    (hrepP : ∀ c ∈ rep, ¬ tokenChar c) :
    ∀ fuel l, l.length ≤ fuel → ¬ pat <:+: repGo pat rep fuel l := by
  intro fuel
  induction fuel with
  | zero =>
    intro l hl h
    rw [List.length_eq_zero.mp (Nat.le_zero.mp hl), repGo_nil] at h
    rcases h with ⟨u, v, huv⟩
    rcases List.append_eq_nil.mp (List.append_eq_nil.mp huv).1 with ⟨-, h2⟩
    exact hpat h2
  | succ f ih =>
    intro l hl h
    cases l with
    | nil =>
      rw [repGo_nil] at h
      rcases h with ⟨u, v, huv⟩
      rcases List.append_eq_nil.mp (List.append_eq_nil.mp huv).1 with ⟨-, h2⟩
      exact hpat h2
    | cons c rest =>
      simp only [repGo] at h
      by_cases hc : pat ≠ [] ∧ pat.isPrefixOf (c :: rest)
      · rw [if_pos hc] at h
        rcases infix_append_cases h with h1 | h2 | ⟨t1, t2, heq, ht1, ht2, hsuf, hpre⟩
        · cases pat with
          | nil => exact hpat rfl
          | cons p0 pat' =>
            exact absurd (hpatP p0 (by simp)) (hrepP p0 (h1.subset (by simp)))
        · have hd : (List.drop pat.length (c :: rest)).length ≤ f := by
            have hp1 : 1 ≤ pat.length := List.length_pos.mpr hpat
            simp only [List.length_drop, List.length_cons]
            simp only [List.length_cons] at hl
            omega
          exact ih _ hd h2
        · cases t1 with
          | nil => exact ht1 rfl
          | cons u0 u' =>
            have hmem1 : u0 ∈ rep := hsuf.subset (by simp)
            have hmem2 : u0 ∈ pat := by rw [heq]; simp
            exact absurd (hpatP u0 hmem2) (hrepP u0 hmem1)
      · rw [if_neg hc] at h
        rcases List.infix_cons_iff.mp h with hp | hi
        · cases pat with
          | nil => exact hpat rfl
          | cons p0 pat' =>
            rcases List.cons_prefix_cons.mp hp with ⟨rfl, hp'⟩
            by_cases hp'nil : pat' = []
            · subst hp'nil
              exact hc ⟨hpat, prefixOf_iff.mpr (List.cons_prefix_cons.mpr ⟨rfl, nilIsPre _⟩)⟩
            · have := repGo_prefix_pull hrep hrepP f rest pat' hp'nil
                (fun x hx => hpatP x (by simp [hx])) hp'
              exact hc ⟨hpat, prefixOf_iff.mpr (List.cons_prefix_cons.mpr ⟨rfl, this⟩)⟩
        · simp only [List.length_cons] at hl
          exact ih rest (by omega) hi

theorem repGo_keep_no {pat rep t : List Char} (ht : t ≠ [])
    (htP : ∀ c ∈ t, tokenChar c) (hrep : rep ≠ [])
    (hrepP : ∀ c ∈ rep, ¬ tokenChar c) :
    ∀ fuel l, ¬ t <:+: l → ¬ t <:+: repGo pat rep fuel l := by
  intro fuel
  induction fuel with
  | zero =>
    intro l hnl h
    rw [repGo_zero] at h
    exact hnl h
  | succ f ih =>
    intro l hnl h
    cases l with
    | nil => rw [repGo_nil] at h; exact hnl h
    | cons c rest =>
      simp only [repGo] at h
      by_cases hc : pat ≠ [] ∧ pat.isPrefixOf (c :: rest)
      · rw [if_pos hc] at h
        rcases infix_append_cases h with h1 | h2 | ⟨t1, t2, heq, ht1, ht2, hsuf, hpre⟩
        · cases t with
          | nil => exact ht rfl
          | cons t0 t' =>
            exact absurd (htP t0 (by simp)) (hrepP t0 (h1.subset (by simp)))
        · have hnd : ¬ t <:+: List.drop pat.length (c :: rest) := fun hd =>
            hnl (hd.trans (suffix_to_infixP (List.drop_suffix _ _)))
          exact ih _ hnd h2
        · cases t1 with
          | nil => exact ht1 rfl
          | cons u0 u' =>
            have hmem1 : u0 ∈ rep := hsuf.subset (by simp)
            have hmem2 : u0 ∈ t := by rw [heq]; simp
            exact absurd (htP u0 hmem2) (hrepP u0 hmem1)
      · rw [if_neg hc] at h
        rcases List.infix_cons_iff.mp h with hp | hi
        · cases t with
          | nil => exact ht rfl
          | cons t0 t' =>
            rcases List.cons_prefix_cons.mp hp with ⟨rfl, hp'⟩
            by_cases ht' : t' = []
            · subst ht'
              exact hnl (prefix_to_infixP (List.cons_prefix_cons.mpr ⟨rfl, nilIsPre _⟩))
            · have := repGo_prefix_pull hrep hrepP f rest t' ht'
                (fun x hx => htP x (by simp [hx])) hp'
              exact hnl (prefix_to_infixP (List.cons_prefix_cons.mpr ⟨rfl, this⟩))
        · exact ih rest (fun hr => hnl (infixP_cons_of c hr)) hi

theorem repGo_length (pat rep : List Char) :
    ∀ fuel l, l.length ≤ fuel →
      (repGo pat rep fuel l).length + occGo pat fuel l * pat.length
        = l.length + occGo pat fuel l * rep.length := by
  intro fuel
  induction fuel with
  | zero =>
    intro l hl
    rw [List.length_eq_zero.mp (Nat.le_zero.mp hl), repGo_nil, occGo_nil]
    simp
  | succ f ih =>
    intro l hl
    cases l with
    | nil => rw [repGo_nil, occGo_nil]; simp
    | cons c rest =>
      simp only [repGo, occGo]
      by_cases hc : pat ≠ [] ∧ pat.isPrefixOf (c :: rest)
      · rw [if_pos hc, if_pos hc]
        have hple : pat.length ≤ (c :: rest).length := (prefixOf_iff.mp hc.2).length_le
        have hp1 : 1 ≤ pat.length := List.length_pos.mpr hc.1
        have hd : (List.drop pat.length (c :: rest)).length ≤ f := by
          simp only [List.length_drop, List.length_cons]
          simp only [List.length_cons] at hl
          omega
        have ihd := ih _ hd
        simp only [List.length_append, List.length_drop, List.length_cons] at ihd ⊢
        simp only [List.length_cons] at hple
        rw [Nat.add_mul, Nat.add_mul, Nat.one_mul, Nat.one_mul]
        generalize hA : occGo pat f (List.drop pat.length (c :: rest)) * pat.length = A at ihd ⊢
        generalize hB : occGo pat f (List.drop pat.length (c :: rest)) * rep.length = B at ihd ⊢
        omega
      · rw [if_neg hc, if_neg hc]
        simp only [List.length_cons] at hl
        have ihd := ih rest (by omega)
        simp only [List.length_cons]
        omega

theorem repGo_occ_zero (pat rep : List Char) :
    ∀ fuel l, occGo pat fuel l = 0 → repGo pat rep fuel l = l := by
  intro fuel
  induction fuel with
  | zero => intro l _; exact repGo_zero _ _ _
  | succ f ih =>
    intro l h
    cases l with
    | nil => exact repGo_nil _ _ _
    | cons c rest =>
      simp only [occGo] at h
      simp only [repGo]
      by_cases hc : pat ≠ [] ∧ pat.isPrefixOf (c :: rest)
      · rw [if_pos hc] at h
        exact absurd h (Nat.succ_ne_zero _)
      · rw [if_neg hc] at h
        rw [if_neg hc, ih rest h]

theorem occGo_pos_iff (pat : List Char) (hpat : pat ≠ []) :
    ∀ fuel l, l.length ≤ fuel → (pat <:+: l ↔ 0 < occGo pat fuel l) := by
  intro fuel
  induction fuel with
  | zero =>
    intro l hl
    rw [List.length_eq_zero.mp (Nat.le_zero.mp hl), occGo_nil]
    constructor
    · intro h
      rcases h with ⟨u, v, huv⟩
      rcases List.append_eq_nil.mp (List.append_eq_nil.mp huv).1 with ⟨-, h2⟩
      exact absurd h2 hpat
    · intro h; exact absurd h (by omega)
  | succ f ih =>
    intro l hl
    cases l with
    | nil =>
      rw [occGo_nil]
      constructor
      · intro h
        rcases h with ⟨u, v, huv⟩
        rcases List.append_eq_nil.mp (List.append_eq_nil.mp huv).1 with ⟨-, h2⟩
        exact absurd h2 hpat
      · intro h; exact absurd h (by omega)
    | cons c rest =>
      simp only [occGo]
      by_cases hc : pat ≠ [] ∧ pat.isPrefixOf (c :: rest)
      · rw [if_pos hc]
        constructor
        · intro _; omega
        · intro _; exact prefix_to_infixP (prefixOf_iff.mp hc.2)
      · rw [if_neg hc]
        simp only [List.length_cons] at hl
        constructor
        · intro h
          rcases List.infix_cons_iff.mp h with hp | hi
          · exact absurd ⟨hpat, prefixOf_iff.mpr hp⟩ hc
          · exact (ih rest (by omega)).mp hi
        · intro h
          exact infixP_cons_of c ((ih rest (by omega)).mpr h)

theorem occCount_zero_iff {l pat : List Char} (hpat : pat ≠ []) :
    occCount l pat = 0 ↔ ¬ pat <:+: l := by
  have h := occGo_pos_iff pat hpat l.length l le_rfl
  unfold occCount
  constructor
  · intro h0 hinf
    have := h.mp hinf
    omega
  · intro hn
    by_contra h0
    exact hn (h.mpr (by omega))

theorem pyReplace_noop {l pat rep : List Char} (h : ¬ pat <:+: l) :
    pyReplace l pat rep = l := by
  by_cases hpat : pat = []
  · subst hpat
    exact absurd List.nil_infix h
  · exact repGo_occ_zero pat rep l.length l (by
      have := (occCount_zero_iff hpat).mpr h
      exact this)

theorem pyReplace_occ_zero {l pat : List Char} (rep : List Char)
    (h : occCount l pat = 0) : pyReplace l pat rep = l :=
  repGo_occ_zero pat rep l.length l h

theorem pyReplace_no_pat {pat rep : List Char} (hpat : pat ≠ [])
    (hpatP : ∀ c ∈ pat, tokenChar c) (hrep : rep ≠ [])
    (hrepP : ∀ c ∈ rep, ¬ tokenChar c) (l : List Char) :
    ¬ pat <:+: pyReplace l pat rep :=
  repGo_no_pat hpat hpatP hrep hrepP l.length l le_rfl

theorem pyReplace_keep_no {pat rep t : List Char} (ht : t ≠ [])
    (htP : ∀ c ∈ t, tokenChar c) (hrep : rep ≠ [])
    (hrepP : ∀ c ∈ rep, ¬ tokenChar c) {l : List Char} (h : ¬ t <:+: l) :
    ¬ t <:+: pyReplace l pat rep :=
  repGo_keep_no ht htP hrep hrepP l.length l h

theorem pyReplace_length (l pat rep : List Char) :
    (pyReplace l pat rep).length + occCount l pat * pat.length
      = l.length + occCount l pat * rep.length :=
  repGo_length pat rep l.length l le_rfl

theorem pyReplace_skip (pat rep : List Char) :
    ∀ l1 rest, noStart pat (l1 ++ rest) l1.length →
      pyReplace (l1 ++ rest) pat rep = l1 ++ pyReplace rest pat rep := by
  intro l1
  induction l1 with
  | nil => intro rest _; simp
  | cons a l1' ih =>
    intro rest hns
    have hstep : pyReplace ((a :: l1') ++ rest) pat rep
        = a :: pyReplace (l1' ++ rest) pat rep := by
      rw [List.cons_append]
      exact pyReplace_cons_nomatch rep (fun hc => hns 0 (by simp) (by simpa using hc.2))
    rw [hstep, List.cons_append]
    refine congrArg (a :: ·) (ih rest ?_)
    intro i hi
    have h2 := hns (i + 1) (by simpa using Nat.succ_lt_succ hi)
    rwa [List.cons_append, List.drop_succ_cons] at h2

theorem pyReplace_nil (pat rep : List Char) : pyReplace [] pat rep = [] := rfl

theorem pyReplace_self (pat rep : List Char) (hpat : pat ≠ []) :
    pyReplace pat pat rep = rep := by
  have h := pyReplace_pat_head pat rep [] hpat
  rw [List.append_nil] at h
  rw [h, pyReplace_nil, List.append_nil]

/-- `rhe1024 a` is a nearest integer to the exact ratio `a / 1024`: it is off
by at most half a unit, i.e. `1024 * rhe1024 a` is within 512 of `a`. -/
theorem rhe1024_nearest (a : Nat) :
    1024 * rhe1024 a ≤ a + 512 ∧ a ≤ 1024 * rhe1024 a + 512 := by
  unfold rhe1024
  split_ifs <;> omega

theorem run_error_of_minified_none (env : Env) (h : env.minifiedSize = none) :
    ∃ e, run env = Except.error e := by
  unfold run
  cases hs : env.sampleFile with
  | none => exact ⟨_, rfl⟩
  | some sample =>
    cases hsrc : env.sourceFile with
    | none => exact ⟨_, rfl⟩
    | some source =>
      cases hext : extractField env.clocOutput with
      | error e => exact ⟨e, rfl⟩
      | ok f =>
        rw [h]
        exact ⟨_, rfl⟩

example : pyReplace "CLOCk".data tokCLOC (fmt1 2048) = "2.0k".data := by decide

example : fmt0 153600 = "150".data := by decide

example : fmt0 153601 = "150".data := by decide

example : fmt1 10240 = "10.0".data := by decide

example : fmt1 10291 = "10.0".data := by decide

example :
    run ⟨some "<p>SOURCE lines, MINIFIED_SIZE KB min, GZIP_SIZE KB gz, CLOCk loc</p>".data,
      some "const x = 1;".data,
      "files,language,blank,comment,code\n\n1,JavaScript,0,0,2048".data,
      some 2048, some 1024⟩ =
    Except.ok "<p>const x = 1; lines, 2 KB min, 1 KB gz, 2.0k loc</p>".data := rfl

/-- Claim C1: with the fixed template, the source listing "const x = 1;", a
2048-byte minified file, a 1024-byte gzip file, and tool output whose 3rd
line's 5th comma-separated field is "2048", the script prints exactly
"<p>const x = 1; lines, 2 KB min, 1 KB gz, 2.0k loc</p>" (the print statement
then terminates the line). -/
theorem c1_end_to_end :
    run ⟨some "<p>SOURCE lines, MINIFIED_SIZE KB min, GZIP_SIZE KB gz, CLOCk loc</p>".data,
      some "const x = 1;".data,
      "files,language,blank,comment,code\n\n1,JavaScript,0,0,2048".data,
      some 2048, some 1024⟩ =
    Except.ok "<p>const x = 1; lines, 2 KB min, 1 KB gz, 2.0k loc</p>".data := rfl

/-- Claim C2, counterexample: a line count of 10291 is formatted as "10.0",
not "10.1" as the claim states — 10291/1024 is about 10.0498, which rounds to
10.0 at one decimal.  Concretely, a run whose template is just "CLOC" and
whose extracted count is 10291 prints "10.0". -/
theorem c2_cex :
    outputText "CLOC".data [] 10291 0 0 = "10.0".data
    ∧ "10.0".data ≠ "10.1".data := ⟨by decide, by decide⟩

/-- Claim C2 as amended: the CLOC placeholder is replaced by the count divided
by 1024 and formatted to one decimal place (`fmt1` renders a tenths count that
is within half a tenth of the exact ratio, i.e. `1024 * t` is within 512 of
`10 * n`); a count of 10240 yields "10.0" and a count of 10291 also yields
"10.0" (not "10.1"). -/
theorem c2_amended :
    (∀ sample source n msize gsize, outputText sample source n msize gsize
        = pyReplace (pyReplace (pyReplace (pyReplace sample tokSOURCE source)
            tokMINIFIED (fmt0 msize)) tokGZIP (fmt0 gsize)) tokCLOC (fmt1 n))
    ∧ (∀ n, fmt1 n
        = natDigits (rhe1024 (10 * n) / 10) ++ '.' :: natDigits (rhe1024 (10 * n) % 10))
    ∧ (∀ n, 1024 * rhe1024 (10 * n) ≤ 10 * n + 512
        ∧ 10 * n ≤ 1024 * rhe1024 (10 * n) + 512)
    ∧ fmt1 10240 = "10.0".data ∧ fmt1 10291 = "10.0".data :=
  ⟨fun _ _ _ _ _ => rfl, fun _ => rfl, fun n => rhe1024_nearest (10 * n),
    by decide, by decide⟩

/-- Claim C3, counterexample: when the tool output has fewer than 3 lines the
script dies with the IndexError from subscripting the split output — exactly
the unrelated index fault the claim rules out — rather than any
external-tool-error condition (the model's error type has no such kind,
because the script classifies no errors). -/
theorem c3_cex :
    (pySplit '\n' "SUM: 0 files".data).length < 3
    ∧ run ⟨some [], some [], "SUM: 0 files".data, some 0, some 0⟩
        = Except.error PyError.IndexError := ⟨by decide, rfl⟩

/-- Claim C3 as amended: whenever the two text files are readable and the tool
output has fewer than 3 lines, the run fails with the IndexError raised by the
subscript on the split tool output. -/
theorem c3_amended (env : Env) (sample source : List Char)
    (hs : env.sampleFile = some sample) (hsrc : env.sourceFile = some source)
    (hlt : (pySplit '\n' env.clocOutput).length < 3) :
    run env = Except.error PyError.IndexError := by
  have h2 : (pySplit '\n' env.clocOutput)[2]? = none :=
    List.getElem?_eq_none (by omega)
  simp [run, hs, hsrc, extractField, h2]

/-- Concrete instance of the amended claim C3. -/
theorem c3_amended_witness :
    run ⟨some [], some [], "x".data, some 0, some 0⟩
      = Except.error PyError.IndexError :=
  c3_amended _ [] [] rfl rfl (by decide)

/-- Claim C4, counterexample: a fully valid run whose source listing itself
contains the token SOURCE leaves that token in the output — the replacements
later in the chain never revisit it. -/
theorem c4_cex :
    run ⟨some "SOURCE".data, some "SOURCE".data, "a\nb\nc,d,e,f,7".data,
        some 5, some 9⟩ = Except.ok "SOURCE".data
    ∧ tokSOURCE <:+: "SOURCE".data := ⟨rfl, by decide⟩

/-- Claim C4 as amended: for every input the output contains zero occurrences
of MINIFIED_SIZE, GZIP_SIZE and CLOC; the token SOURCE, however, can survive
through the substituted source-listing text, because its replacement text is
arbitrary while the other three replacements are strings of digits and dots
that can neither contain nor recreate an all-capitals token. -/
theorem c4_amended (sample source : List Char) (n msize gsize : Nat) :
    ¬ tokMINIFIED <:+: outputText sample source n msize gsize
    ∧ ¬ tokGZIP <:+: outputText sample source n msize gsize
    ∧ ¬ tokCLOC <:+: outputText sample source n msize gsize := by
  unfold outputText
  refine ⟨?_, ?_, ?_⟩
  · apply pyReplace_keep_no (by decide) tokMINIFIED_chars (fmt1_ne_nil n) (fmt1_chars n)
    apply pyReplace_keep_no (by decide) tokMINIFIED_chars (fmt0_ne_nil gsize) (fmt0_chars gsize)
    exact pyReplace_no_pat (by decide) tokMINIFIED_chars (fmt0_ne_nil msize)
      (fmt0_chars msize) _
  · apply pyReplace_keep_no (by decide) tokGZIP_chars (fmt1_ne_nil n) (fmt1_chars n)
    exact pyReplace_no_pat (by decide) tokGZIP_chars (fmt0_ne_nil gsize)
      (fmt0_chars gsize) _
  · exact pyReplace_no_pat (by decide) tokCLOC_chars (fmt1_ne_nil n) (fmt1_chars n) _

/-- Claim C5, counterexample: for the valid input whose template is empty and
whose source listing is "x", the output length is 0, while the claimed
bookkeeping formula gives 0 - 32 + 6 = -26. -/
theorem c5_cex :
    ¬ (((outputText [] ['x'] 2048 2048 1024).length : Int)
        = (([] : List Char).length : Int)
          - ((tokSOURCE.length : Int) + (tokMINIFIED.length : Int)
              + (tokGZIP.length : Int) + (tokCLOC.length : Int))
          + (((['x'] : List Char).length : Int) + ((fmt0 2048).length : Int)
              + ((fmt0 1024).length : Int) + ((fmt1 2048).length : Int))) := by
  decide

/-- Claim C5 as amended: the bookkeeping formula holds whenever each of the
four replacement steps finds exactly one occurrence of its token in the text
it scans: output length = template length - total token length + total
substituted-value length. -/
theorem c5_amended (sample source : List Char) (n msize gsize : Nat)
    (h1 : occCount sample tokSOURCE = 1)
    (h2 : occCount (pyReplace sample tokSOURCE source) tokMINIFIED = 1)
    (h3 : occCount (pyReplace (pyReplace sample tokSOURCE source) tokMINIFIED
        (fmt0 msize)) tokGZIP = 1)
    (h4 : occCount (pyReplace (pyReplace (pyReplace sample tokSOURCE source)
        tokMINIFIED (fmt0 msize)) tokGZIP (fmt0 gsize)) tokCLOC = 1) :
    ((outputText sample source n msize gsize).length : Int)
      = (sample.length : Int)
        - ((tokSOURCE.length : Int) + (tokMINIFIED.length : Int)
            + (tokGZIP.length : Int) + (tokCLOC.length : Int))
        + ((source.length : Int) + ((fmt0 msize).length : Int)
            + ((fmt0 gsize).length : Int) + ((fmt1 n).length : Int)) := by
  have e1 := pyReplace_length sample tokSOURCE source
  have e2 := pyReplace_length (pyReplace sample tokSOURCE source) tokMINIFIED (fmt0 msize)
  have e3 := pyReplace_length (pyReplace (pyReplace sample tokSOURCE source)
    tokMINIFIED (fmt0 msize)) tokGZIP (fmt0 gsize)
  have e4 := pyReplace_length (pyReplace (pyReplace (pyReplace sample tokSOURCE source)
    tokMINIFIED (fmt0 msize)) tokGZIP (fmt0 gsize)) tokCLOC (fmt1 n)
  rw [h1] at e1
  rw [h2] at e2
  rw [h3] at e3
  rw [h4] at e4
  simp only [Nat.one_mul] at e1 e2 e3 e4
  unfold outputText
  omega

/-- Concrete instance of the amended claim C5, at the end-to-end inputs. -/
theorem c5_amended_witness :
    (occCount "<p>SOURCE lines, MINIFIED_SIZE KB min, GZIP_SIZE KB gz, CLOCk loc</p>".data
        tokSOURCE = 1)
    ∧ ((outputText "<p>SOURCE lines, MINIFIED_SIZE KB min, GZIP_SIZE KB gz, CLOCk loc</p>".data
          "const x = 1;".data 2048 2048 1024).length : Int)
        = (("<p>SOURCE lines, MINIFIED_SIZE KB min, GZIP_SIZE KB gz, CLOCk loc</p>".data.length : Int))
          - ((tokSOURCE.length : Int) + (tokMINIFIED.length : Int)
              + (tokGZIP.length : Int) + (tokCLOC.length : Int))
          + (("const x = 1;".data.length : Int) + ((fmt0 2048).length : Int)
              + ((fmt0 1024).length : Int) + ((fmt1 2048).length : Int)) :=
  ⟨by decide,
    c5_amended _ _ 2048 2048 1024 (by decide) (by decide) (by decide) (by decide)⟩

/-- Claim C6: the MINIFIED_SIZE placeholder is replaced with the byte size
divided by 1024 and rounded to a nearest integer (`rhe1024`, whose result is
within half a unit of the exact ratio — ties round to even), formatted as an
integer; 153600 bytes format as "150" and so do 153601 bytes. -/
theorem c6_minified_rounding :
    (∀ sample source n msize gsize, outputText sample source n msize gsize
        = pyReplace (pyReplace (pyReplace (pyReplace sample tokSOURCE source)
            tokMINIFIED (fmt0 msize)) tokGZIP (fmt0 gsize)) tokCLOC (fmt1 n))
    ∧ (∀ m, fmt0 m = natDigits (rhe1024 m))
    ∧ (∀ m, 1024 * rhe1024 m ≤ m + 512 ∧ m ≤ 1024 * rhe1024 m + 512)
    ∧ fmt0 153600 = "150".data ∧ fmt0 153601 = "150".data :=
  ⟨fun _ _ _ _ _ => rfl, fun _ => rfl, rhe1024_nearest, by decide, by decide⟩

/-- Claim C7: when the minified bundle file is missing, the run dies before
printing anything — standard output stays empty and the exit status is
non-zero. -/
theorem c7_missing_minified (env : Env) (h : env.minifiedSize = none) :
    stdout env = [] ∧ exitCode env ≠ 0 := by
  rcases run_error_of_minified_none env h with ⟨e, he⟩
  unfold stdout exitCode
  rw [he]
  exact ⟨rfl, Nat.one_ne_zero⟩

/-- Concrete instance of claim C7. -/
theorem c7_witness :
    (⟨some [], some [], [], none, some 0⟩ : Env).minifiedSize = none
    ∧ (stdout ⟨some [], some [], [], none, some 0⟩ = []
        ∧ exitCode ⟨some [], some [], [], none, some 0⟩ ≠ 0) :=
  ⟨rfl, c7_missing_minified _ rfl⟩

/-- Claim C8: the generator is deterministic — two runs that observe the same
file contents and the same tool output produce the same result, the same
bytes on standard output and the same exit status. -/
theorem c8_deterministic (e1 e2 : Env)
    (h1 : e1.sampleFile = e2.sampleFile) (h2 : e1.sourceFile = e2.sourceFile)
    (h3 : e1.clocOutput = e2.clocOutput) (h4 : e1.minifiedSize = e2.minifiedSize)
    (h5 : e1.gzipSize = e2.gzipSize) :
    run e1 = run e2 ∧ stdout e1 = stdout e2 ∧ exitCode e1 = exitCode e2 := by
  cases e1
  cases e2
  simp only at h1 h2 h3 h4 h5
  subst h1
  subst h2
  subst h3
  subst h4
  subst h5
  exact ⟨rfl, rfl, rfl⟩

/-- Concrete instance of claim C8. -/
theorem c8_witness :
    run ⟨some "T".data, some "s".data, "a\nb\nc,d,e,f,7".data, some 1, some 2⟩
        = run ⟨some "T".data, some "s".data, "a\nb\nc,d,e,f,7".data, some 1, some 2⟩
    ∧ stdout ⟨some "T".data, some "s".data, "a\nb\nc,d,e,f,7".data, some 1, some 2⟩
        = stdout ⟨some "T".data, some "s".data, "a\nb\nc,d,e,f,7".data, some 1, some 2⟩
    ∧ exitCode ⟨some "T".data, some "s".data, "a\nb\nc,d,e,f,7".data, some 1, some 2⟩
        = exitCode ⟨some "T".data, some "s".data, "a\nb\nc,d,e,f,7".data, some 1, some 2⟩ :=
  c8_deterministic _ _ rfl rfl rfl rfl rfl

/-- Claim C9: substitution is permissive.  A token absent from the text makes
that replacement a no-op; the run still succeeds whatever the template
contains (there is no failure kind for a missing placeholder); and a token
appearing several times is replaced at every (non-overlapping) occurrence. -/
theorem c9_permissive :
    (∀ l pat rep : List Char, ¬ pat <:+: l → pyReplace l pat rep = l)
    ∧ (∀ (sample source out field : List Char) (n msize gsize : Nat),
        extractField out = Except.ok field → pyFloat field = some n →
        run ⟨some sample, some source, out, some msize, some gsize⟩
          = Except.ok (outputText sample source n msize gsize))
    ∧ (∀ pat rep l1 l2 l3 : List Char, pat ≠ [] →
        noStart pat (l1 ++ (pat ++ (l2 ++ (pat ++ l3)))) l1.length →
        noStart pat (l2 ++ (pat ++ l3)) l2.length →
        ¬ pat <:+: l3 →
        pyReplace (l1 ++ (pat ++ (l2 ++ (pat ++ l3)))) pat rep
          = l1 ++ (rep ++ (l2 ++ (rep ++ l3)))) := by
  refine ⟨fun l pat rep h => pyReplace_noop h, ?_, ?_⟩
  · intro sample source out field n msize gsize hext hfl
    simp [run, hext, hfl]
  · intro pat rep l1 l2 l3 hpat hns1 hns2 h3
    rw [pyReplace_skip pat rep l1 _ hns1]
    rw [pyReplace_pat_head pat rep _ hpat]
    rw [pyReplace_skip pat rep l2 _ hns2]
    rw [pyReplace_pat_head pat rep _ hpat]
    rw [pyReplace_noop h3]

/-- Concrete instance of claim C9: a text without the token is unchanged, a
valid run succeeds, and a token occurring twice is replaced twice. -/
theorem c9_witness :
    pyReplace "abc".data tokCLOC "9.9".data = "abc".data
    ∧ run ⟨some "S".data, some "x".data, "a\nb\nc,d,e,f,7".data, some 1, some 2⟩
        = Except.ok (outputText "S".data "x".data 7 1 2)
    ∧ pyReplace ("a ".data ++ (tokCLOC ++ (" b ".data ++ (tokCLOC ++ " c".data))))
          tokCLOC "9.9".data
        = "a ".data ++ ("9.9".data ++ (" b ".data ++ ("9.9".data ++ " c".data))) :=
  ⟨c9_permissive.1 _ _ _ (by decide),
   c9_permissive.2.1 _ _ _ "7".data 7 1 2 rfl rfl,
   c9_permissive.2.2 tokCLOC "9.9".data "a ".data " b ".data " c".data
     (by decide) (by decide) (by decide) (by decide)⟩

/-- Claim C10: the four replacements are sequential, so a later token
occurring inside the substituted source-listing text is itself replaced by
the corresponding formatted value, while the token SOURCE inside the
source-listing text is never replaced (the fourth part: once the later tokens
are absent, the output is the source text itself, whatever occurrences of
SOURCE it contains). -/
theorem c10_sequential :
    (∀ u v : List Char, ∀ n msize gsize : Nat,
        noStart tokMINIFIED (u ++ (tokMINIFIED ++ v)) u.length →
        ¬ tokMINIFIED <:+: v →
        ¬ tokGZIP <:+: u ++ (fmt0 msize ++ v) →
        ¬ tokCLOC <:+: u ++ (fmt0 msize ++ v) →
        outputText tokSOURCE (u ++ (tokMINIFIED ++ v)) n msize gsize
          = u ++ (fmt0 msize ++ v))
    ∧ (∀ u v : List Char, ∀ n msize gsize : Nat,
        noStart tokGZIP (u ++ (tokGZIP ++ v)) u.length →
        ¬ tokGZIP <:+: v →
        ¬ tokMINIFIED <:+: u ++ (tokGZIP ++ v) →
        ¬ tokCLOC <:+: u ++ (fmt0 gsize ++ v) →
        outputText tokSOURCE (u ++ (tokGZIP ++ v)) n msize gsize
          = u ++ (fmt0 gsize ++ v))
    ∧ (∀ u v : List Char, ∀ n msize gsize : Nat,
        noStart tokCLOC (u ++ (tokCLOC ++ v)) u.length →
        ¬ tokCLOC <:+: v →
        ¬ tokMINIFIED <:+: u ++ (tokCLOC ++ v) →
        ¬ tokGZIP <:+: u ++ (tokCLOC ++ v) →
        outputText tokSOURCE (u ++ (tokCLOC ++ v)) n msize gsize
          = u ++ (fmt1 n ++ v))
    ∧ (∀ src : List Char, ∀ n msize gsize : Nat,
        ¬ tokMINIFIED <:+: src → ¬ tokGZIP <:+: src → ¬ tokCLOC <:+: src →
        outputText tokSOURCE src n msize gsize = src) := by
  refine ⟨?_, ?_, ?_, ?_⟩
  · intro u v n msize gsize hns hv hgz hcl
    unfold outputText
    rw [pyReplace_self tokSOURCE _ (by decide)]
    rw [pyReplace_skip tokMINIFIED (fmt0 msize) u _ hns]
    rw [pyReplace_pat_head tokMINIFIED (fmt0 msize) v (by decide)]
    rw [pyReplace_noop hv]
    rw [pyReplace_noop hgz, pyReplace_noop hcl]
  · intro u v n msize gsize hns hv hmin hcl
    unfold outputText
    rw [pyReplace_self tokSOURCE _ (by decide)]
    rw [pyReplace_noop hmin]
    rw [pyReplace_skip tokGZIP (fmt0 gsize) u _ hns]
    rw [pyReplace_pat_head tokGZIP (fmt0 gsize) v (by decide)]
    rw [pyReplace_noop hv]
    rw [pyReplace_noop hcl]
  · intro u v n msize gsize hns hv hmin hgz
    unfold outputText
    rw [pyReplace_self tokSOURCE _ (by decide)]
    rw [pyReplace_noop hmin]
    rw [pyReplace_noop hgz]
    rw [pyReplace_skip tokCLOC (fmt1 n) u _ hns]
    rw [pyReplace_pat_head tokCLOC (fmt1 n) v (by decide)]
    rw [pyReplace_noop hv]
  · intro src n msize gsize hmin hgz hcl
    unfold outputText
    rw [pyReplace_self tokSOURCE _ (by decide)]
    rw [pyReplace_noop hmin, pyReplace_noop hgz, pyReplace_noop hcl]

/-- Concrete instance of claim C10 for each of its four parts. -/
theorem c10_witness :
    outputText tokSOURCE ("x ".data ++ (tokMINIFIED ++ " y".data)) 2048 3072 1024
        = "x ".data ++ (fmt0 3072 ++ " y".data)
    ∧ outputText tokSOURCE ("x ".data ++ (tokGZIP ++ " y".data)) 2048 3072 1024
        = "x ".data ++ (fmt0 1024 ++ " y".data)
    ∧ outputText tokSOURCE ("x ".data ++ (tokCLOC ++ " y".data)) 2048 3072 1024
        = "x ".data ++ (fmt1 2048 ++ " y".data)
    ∧ outputText tokSOURCE ("q ".data ++ (tokSOURCE ++ " r".data)) 2048 3072 1024
        = "q ".data ++ (tokSOURCE ++ " r".data) :=
  ⟨c10_sequential.1 "x ".data " y".data 2048 3072 1024
      (by decide) (by decide) (by decide) (by decide),
   c10_sequential.2.1 "x ".data " y".data 2048 3072 1024
      (by decide) (by decide) (by decide) (by decide),
   c10_sequential.2.2.1 "x ".data " y".data 2048 3072 1024
      (by decide) (by decide) (by decide) (by decide),
   c10_sequential.2.2.2 ("q ".data ++ (tokSOURCE ++ " r".data)) 2048 3072 1024
      (by decide) (by decide) (by decide)⟩
